import Mathlib

/-
Shallow embedding of the INSIGMAAI Dify model adapters
(rerank, text embedding, speech-to-text, text-to-speech).

The Python sources embedded here:
  models/rerank/rerank.py            INSIGMAAIRerankModel
  models/text_embedding/text_embedding.py  INSIGMAAITextEmbeddingModel
  models/speech2text/speech2text.py  INSIGMAAISpeechToTextModel
  models/tts/tts.py                  INSIGMAAITextToSpeechModel

Strings are modelled as Lean String / List Char; Python float scores are
modelled as rationals; Python dicts holding credentials are modelled as
association lists; exceptions are modelled explicitly as values of a small
exception type, distinguishing the exception classes of the two HTTP client
libraries involved (requests and httpx), since the rerank adapter sends its
request with requests.post but its except clause and its error-mapping table
name httpx exception classes only.
-/

namespace Insigma

/-! ## Endpoint URL normalization

Embeds the suffix-stripping chain that appears identically in
rerank._invoke, text_embedding._get_compatible_credentials,
speech2text._standardize_endpoint_url and tts._standardize_endpoint_url:

    url.rstrip("/")
       .removesuffix("/v1").removesuffix("/v1/")
       .removesuffix("/v1-openai").removesuffix("/v1-openai/")
       .removesuffix("/openai-v1").removesuffix("/openai-v1/")
-/

/-- Python str.rstrip("/"): drop every trailing slash. -/
def rstripSlash (s : List Char) : List Char :=
  (s.reverse.dropWhile (· == '/')).reverse

/-- Python str.removesuffix: drop the suffix once when it is non-empty and
present, otherwise return the string unchanged. -/
def removesuffix (s suf : List Char) : List Char :=
  if suf ≠ [] ∧ suf <:+ s then s.take (s.length - suf.length) else s

/-- The six version suffixes recognized by every adapter, in the fixed
order in which the code strips them. -/
def versionSuffixes : List (List Char) :=
  ["/v1".data, "/v1/".data, "/v1-openai".data, "/v1-openai/".data,
   "/openai-v1".data, "/openai-v1/".data]

/-- The shared endpoint URL stripping chain (rerank flavor: bare base). -/
def stripVersionSuffixes (s : List Char) : List Char :=
  removesuffix
    (removesuffix
      (removesuffix
        (removesuffix
          (removesuffix
            (removesuffix (rstripSlash s) "/v1".data)
            "/v1/".data)
          "/v1-openai".data)
        "/v1-openai/".data)
      "/openai-v1".data)
    "/openai-v1/".data

/-- OpenAI-compatible flavor: the stripped base with "/v1" re-appended,
as in f"\x7bbase_url\x7d/v1" of the embedding/STT/TTS adapters. -/
def openAiBase (s : List Char) : List Char :=
  stripVersionSuffixes s ++ "/v1".data

/-- String-level wrapper of the rerank-flavor strip. -/
def stripVersionSuffixesS (s : String) : String :=
  ⟨stripVersionSuffixes s.data⟩

/-- String-level wrapper of the OpenAI-compatible flavor. -/
def openAiBaseS (s : String) : String :=
  ⟨openAiBase s.data⟩

/-! ## Credentials dictionaries

Python dicts of string keys and values, as association lists with
dict-update (replace in place, else append) semantics. -/

/-- A credentials mapping: ordered association list of string keys/values. -/
def Dict : Type := List (String × String)

/-- Python d[k] / d.get(k): the value at the first matching key. -/
def dictGet? (d : Dict) (k : String) : Option String :=
  match d with
  | [] => none
  | (k', v) :: t => if k' = k then some v else dictGet? t k

/-- Python d[k] = v on a dict: replace the first binding of k, else append. -/
def dictSet (d : Dict) (k v : String) : Dict :=
  match d with
  | [] => [(k, v)]
  | (k', v') :: t => if k' = k then (k, v) :: t else (k', v') :: dictSet t k v

/-- INSIGMAAITextEmbeddingModel._get_compatible_credentials: copies the
credentials, strips the endpoint URL and re-appends "/v1".  Returns none on
the KeyError raised when endpoint_url is absent. -/
def embedding_get_compatible_credentials (credentials : Dict) : Option Dict :=
  match dictGet? credentials "endpoint_url" with
  | none => none
  | some u => some (dictSet credentials "endpoint_url" (openAiBaseS u))

/-- INSIGMAAISpeechToTextModel._standardize_endpoint_url: same body as the
embedding normalizer. -/
def speech2text_standardize_endpoint_url (credentials : Dict) : Option Dict :=
  match dictGet? credentials "endpoint_url" with
  | none => none
  | some u => some (dictSet credentials "endpoint_url" (openAiBaseS u))

/-- INSIGMAAITextToSpeechModel._standardize_endpoint_url: same body as the
embedding normalizer. -/
def tts_standardize_endpoint_url (credentials : Dict) : Option Dict :=
  match dictGet? credentials "endpoint_url" with
  | none => none
  | some u => some (dictSet credentials "endpoint_url" (openAiBaseS u))

/-! ## Rerank data model -/

/-- One entry of the provider response's results array:
index, relevance_score, and an optional document object (its text field). -/
structure ProviderEntry where
  index : Int
  relevance_score : ℚ
  document : Option String
deriving DecidableEq, Repr

/-- dify_plugin RerankDocument as the rerank adapter constructs it. -/
structure RerankDocument where
  index : Int
  text : String
  score : ℚ
deriving DecidableEq, Repr

/-- dify_plugin RerankResult. -/
structure RerankResult where
  model : String
  docs : List RerankDocument
deriving DecidableEq, Repr

/-- The JSON request body the rerank adapter builds:
model, query, documents, top_n. -/
structure RerankRequestBody where
  model : String
  query : String
  documents : List String
  top_n : Int
deriving DecidableEq, Repr

/-- The outbound POST: target URL plus JSON body. -/
structure SentRequest where
  url : String
  body : RerankRequestBody
deriving DecidableEq, Repr

/-- The Python exceptions that can reach the rerank adapter's try block,
tagged with the library class they belong to.  requests exceptions and
httpx exceptions live in unrelated class hierarchies. -/
inductive PyExc where
  | requestsHTTPError (status : Nat) (msg : String)
  | requestsConnectionError (msg : String)
  | httpxHTTPStatusError (msg : String)
  | httpxConnectError (msg : String)
  | httpxRemoteProtocolError (msg : String)
  | httpxRequestErrorOther (msg : String)
  | indexError (msg : String)
  | otherError (msg : String)
deriving DecidableEq, Repr

/-- str(e): the message text an exception carries. -/
def PyExc.message : PyExc → String
  | .requestsHTTPError _ m => m
  | .requestsConnectionError m => m
  | .httpxHTTPStatusError m => m
  | .httpxConnectError m => m
  | .httpxRemoteProtocolError m => m
  | .httpxRequestErrorOther m => m
  | .indexError m => m
  | .otherError m => m

/-- isinstance(e, httpx.HTTPStatusError): the test performed by the except
clause of rerank._invoke.  Only the httpx status error class matches; a
requests.exceptions.HTTPError is not an httpx.HTTPStatusError. -/
def PyExc.isHttpxHTTPStatusError : PyExc → Bool
  | .httpxHTTPStatusError _ => true
  | _ => false

/-- What escapes rerank._invoke on failure: either the
InvokeServerUnavailableError raised by the except clause, or the original
exception propagating uncaught. -/
inductive InvokeErr where
  | invokeServerUnavailableError (msg : String)
  | uncaught (e : PyExc)
deriving DecidableEq, Repr

/-- Message text of an invoke failure. -/
def InvokeErr.message : InvokeErr → String
  | .invokeServerUnavailableError m => m
  | .uncaught e => e.message

/-- Behavior of the single outbound POST: either the provider answers with
an HTTP status and a (parsed) results array, or the transport raises. -/
inductive PostOutcome where
  | response (status : Nat) (results : List ProviderEntry)
  | raiseExc (e : PyExc)
deriving DecidableEq, Repr

/-- Python str.strip(): drop leading and trailing whitespace. -/
def pyStrip (s : String) : String :=
  ⟨((s.data.dropWhile Char.isWhitespace).reverse.dropWhile
      Char.isWhitespace).reverse⟩

/-- Python list indexing docs[i]: non-negative indexes from the front,
negative indexes from the back, anything out of range raises (none). -/
def pyListGet? (l : List String) (i : Int) : Option String :=
  let n : Int := if i < 0 then (l.length : Int) + i else i
  if 0 ≤ n ∧ n < (l.length : Int) then l.get? n.toNat else none

/-- The filter condition of the result loop:
score_threshold is None or score >= score_threshold. -/
def passesThreshold (st : Option ℚ) (score : ℚ) : Bool :=
  match st with
  | none => true
  | some θ => θ ≤ score

/-- Text of one result entry: result["document"]["text"] when a document
object is present, otherwise docs[index] (which may raise). -/
def resultText (docs : List String) (r : ProviderEntry) : Option String :=
  match r.document with
  | some t => some t
  | none => pyListGet? docs r.index

/-- The result loop of rerank._invoke: walks the provider entries in order,
resolves each entry's text (none = IndexError from docs[index]), and keeps
an entry only when it passes the threshold test.  No re-sorting, no
re-truncation. -/
def processResults (docs : List String) (st : Option ℚ) :
    List ProviderEntry → Option (List RerankDocument)
  | [] => some []
  | r :: rs =>
    match resultText docs r with
    | none => none
    | some text =>
      match processResults docs st rs with
      | none => none
      | some rest =>
        if passesThreshold st r.relevance_score then
          some (⟨r.index, text, r.relevance_score⟩ :: rest)
        else
          some rest

/-- The except clause of rerank._invoke: only an httpx.HTTPStatusError is
converted to InvokeServerUnavailableError; every other exception
propagates uncaught. -/
def handleInvokeExc (e : PyExc) : InvokeErr :=
  if e.isHttpxHTTPStatusError then
    .invokeServerUnavailableError e.message
  else
    .uncaught e

/-- str(URL(endpoint_url) / "v1" / "rerank") on the stripped base. -/
def rerankRequestUrl (endpoint_url : String) : String :=
  ⟨stripVersionSuffixes endpoint_url.data ++ "/v1/rerank".data⟩

/-- Message of the requests.exceptions.HTTPError that
response.raise_for_status() raises on a 4xx/5xx status. -/
def requestsHTTPErrorMsg (status : Nat) : String :=
  toString status ++ " Error"

/-- INSIGMAAIRerankModel._invoke, parameterized by the provider's behavior.
Returns the outbound request (none when no request was built or sent) and
the outcome.  Mirrors the source line by line: empty-docs short circuit,
top_n default 3, model.strip(), suffix strip of endpoint_url, request body
construction, raise_for_status (a requests.exceptions.HTTPError on
status >= 400, which the httpx-only except clause does not catch), then the
result loop. -/
def rerank_invoke (model endpoint_url query : String) (docs : List String)
    (score_threshold : Option ℚ) (top_n : Option Int)
    (provider : PostOutcome) :
    Option SentRequest × Except InvokeErr RerankResult :=
  if docs.length = 0 then
    (none, .ok ⟨model, []⟩)
  else
    let top_n' : Int := top_n.getD 3
    let model' := pyStrip model
    let req : SentRequest :=
      ⟨rerankRequestUrl endpoint_url, ⟨model', query, docs, top_n'⟩⟩
    match provider with
    | .raiseExc e => (some req, .error (handleInvokeExc e))
    | .response status results =>
      if 400 ≤ status ∧ status < 600 then
        (some req,
         .error (handleInvokeExc
           (.requestsHTTPError status (requestsHTTPErrorMsg status))))
      else
        match processResults docs score_threshold results with
        | none =>
          (some req,
           .error (handleInvokeExc (.indexError "list index out of range")))
        | some l => (some req, .ok ⟨model', l⟩)

/-- The two fixed reference documents of the smoke test in
validate_credentials. -/
def validateDocs : List String :=
  ["北京市是中华人民共和国的首都，位于中国华北地区，是全国的政治、文化、国际交往和科技创新中心。北京拥有三千多年建城史，是一座历史悠久的古都。",
   "上海市是中国的经济、金融、贸易和航运中心，位于中国东部沿海，是重要的国际化大都市，但并非首都。"]

/-- INSIGMAAIRerankModel.validate_credentials: runs the fixed smoke-test
_invoke with score_threshold 0.8 = 4/5; any exception is caught and
re-raised as CredentialsValidateFailedError with the original message
appended.  Returns none on success, some message on failure. -/
def rerank_validate_credentials (model endpoint_url : String)
    (provider : PostOutcome) : Option String :=
  match (rerank_invoke model endpoint_url "中国的首都是哪里？" validateDocs
      (some (4 / 5)) none provider).2 with
  | .ok _ => none
  | .error e => some ("凭证验证失败: " ++ e.message)

/-! ## The declarative error-mapping table -/

/-- The four httpx exception classes named by _invoke_error_mapping. -/
inductive ExcClass where
  | httpxConnectError
  | httpxRemoteProtocolError
  | httpxHTTPStatusError
  | httpxRequestError
deriving DecidableEq, Repr

/-- isinstance against the httpx class hierarchy: ConnectError,
RemoteProtocolError and the generic request-error case are subclasses of
httpx.RequestError; HTTPStatusError is not; no requests exception is an
instance of any httpx class. -/
def PyExc.isInstanceOf : PyExc → ExcClass → Bool
  | .httpxConnectError _, .httpxConnectError => true
  | .httpxConnectError _, .httpxRequestError => true
  | .httpxRemoteProtocolError _, .httpxRemoteProtocolError => true
  | .httpxRemoteProtocolError _, .httpxRequestError => true
  | .httpxHTTPStatusError _, .httpxHTTPStatusError => true
  | .httpxRequestErrorOther _, .httpxRequestError => true
  | _, _ => false

/-- The five host error kinds of the mapping table. -/
inductive InvokeErrorKind where
  | connection
  | serverUnavailable
  | rateLimit
  | authorization
  | badRequest
deriving DecidableEq, Repr

/-- INSIGMAAIRerankModel._invoke_error_mapping, as the ordered table the
host consults. -/
def invoke_error_mapping : List (InvokeErrorKind × List ExcClass) :=
  [(.connection, [.httpxConnectError]),
   (.serverUnavailable, [.httpxRemoteProtocolError]),
   (.rateLimit, []),
   (.authorization, [.httpxHTTPStatusError]),
   (.badRequest, [.httpxRequestError])]

/-- Host-side classification of an uncaught exception through the mapping
table: the first kind whose class list matches, none when no entry does. -/
def classifyExc (e : PyExc) : Option InvokeErrorKind :=
  (invoke_error_mapping.find? (fun p => p.2.any (fun c => e.isInstanceOf c))).map
    (fun p => p.1)

end Insigma

namespace Insigma

/-! ## Lemmas about the URL normalization chain -/

theorem rstripSlash_eq_self (s : List Char) (h : s.getLast? ≠ some '/') :
    rstripSlash s = s := by
  unfold rstripSlash
  cases hr : s.reverse with
  | nil =>
    have hs : s = [] := by simpa using congrArg List.reverse hr
    simp [hs]
  | cons c t =>
    have hc : s.getLast? = some c := by
      rw [← List.head?_reverse, hr]; rfl
    have hcne : c ≠ '/' := fun he => h (by rw [hc, he])
    have hs' : s = (c :: t).reverse := by
      simpa using congrArg List.reverse hr
    rw [List.dropWhile_cons]
    simp only [beq_iff_eq]
    rw [if_neg hcne, ← hs']

theorem rstripSlash_append_slash (s : List Char) :
    rstripSlash (s ++ ['/']) = rstripSlash s := by
  unfold rstripSlash
  rw [List.reverse_append]
  simp [List.dropWhile_cons]

theorem suffix_getLast?_eq {suf b : List Char} (h : suf <:+ b) (hne : suf ≠ []) :
    b.getLast? = suf.getLast? := by
  obtain ⟨t, rfl⟩ := h
  exact List.getLast?_append_of_ne_nil t hne

theorem not_suffix_of_getLast?_ne {suf b : List Char} (hne : suf ≠ [])
    (h : b.getLast? ≠ suf.getLast?) : ¬ suf <:+ b :=
  fun hs => h (suffix_getLast?_eq hs hne)

theorem not_slash_suffix (b : List Char) (hs : b.getLast? ≠ some '/')
    (suf : List Char) (hsuf : suf.getLast? = some '/') : ¬ suf <:+ b := by
  refine not_suffix_of_getLast?_ne ?_ ?_
  · intro he; rw [he] at hsuf; cases hsuf
  · rw [hsuf]; exact hs

theorem removesuffix_append (b suf : List Char) (h : suf ≠ []) :
    removesuffix (b ++ suf) suf = b := by
  unfold removesuffix
  rw [if_pos ⟨h, List.suffix_append b suf⟩, List.length_append]
  have hl : b.length + suf.length - suf.length = b.length := by omega
  rw [hl, List.take_left]

theorem removesuffix_of_not_suffix {b suf : List Char} (h : ¬ suf <:+ b) :
    removesuffix b suf = b := by
  unfold removesuffix
  exact if_neg (fun hc => h hc.2)

theorem suffix_append_iff_of_le {suf b t : List Char}
    (h : suf.length ≤ t.length) : suf <:+ b ++ t ↔ suf <:+ t := by
  constructor
  · rintro ⟨u, hu⟩
    rcases List.append_eq_append_iff.mp hu with ⟨a', _, ha2⟩ | ⟨c', _, hc2⟩
    · have hlen : suf.length = a'.length + t.length := by
        rw [ha2, List.length_append]
      have ha' : a' = [] := by
        have : a'.length = 0 := by omega
        exact List.length_eq_zero.mp this
      rw [ha2, ha']
      exact List.nil_append t ▸ List.suffix_refl t
    · exact ⟨c', hc2.symm⟩
  · exact fun h' => h'.trans (List.suffix_append b t)

theorem strip_clean (b : List Char) (hs : b.getLast? ≠ some '/')
    (h1 : ¬ "/v1".data <:+ b) (h2 : ¬ "/v1-openai".data <:+ b)
    (h3 : ¬ "/openai-v1".data <:+ b) :
    stripVersionSuffixes b = b := by
  have s0 : rstripSlash b = b := rstripSlash_eq_self b hs
  have s1 : removesuffix b "/v1".data = b := removesuffix_of_not_suffix h1
  have s2 : removesuffix b "/v1/".data = b :=
    removesuffix_of_not_suffix (not_slash_suffix b hs _ (by decide))
  have s3 : removesuffix b "/v1-openai".data = b := removesuffix_of_not_suffix h2
  have s4 : removesuffix b "/v1-openai/".data = b :=
    removesuffix_of_not_suffix (not_slash_suffix b hs _ (by decide))
  have s5 : removesuffix b "/openai-v1".data = b := removesuffix_of_not_suffix h3
  have s6 : removesuffix b "/openai-v1/".data = b :=
    removesuffix_of_not_suffix (not_slash_suffix b hs _ (by decide))
  unfold stripVersionSuffixes
  rw [s0, s1, s2, s3, s4, s5, s6]

theorem strip_append_slash (s : List Char) :
    stripVersionSuffixes (s ++ ['/']) = stripVersionSuffixes s := by
  unfold stripVersionSuffixes
  rw [rstripSlash_append_slash]

theorem strip_append_v1 (b : List Char) (hs : b.getLast? ≠ some '/')
    (h2 : ¬ "/v1-openai".data <:+ b) (h3 : ¬ "/openai-v1".data <:+ b) :
    stripVersionSuffixes (b ++ "/v1".data) = b := by
  have hlast : (b ++ "/v1".data).getLast? = some '1' := by
    rw [@List.getLast?_append_of_ne_nil _ b "/v1".data (by decide)]; decide
  have hbs : (b ++ "/v1".data).getLast? ≠ some '/' := by rw [hlast]; decide
  have s0 : rstripSlash (b ++ "/v1".data) = b ++ "/v1".data :=
    rstripSlash_eq_self _ hbs
  have s1 : removesuffix (b ++ "/v1".data) "/v1".data = b :=
    removesuffix_append b _ (by decide)
  have s2 : removesuffix b "/v1/".data = b :=
    removesuffix_of_not_suffix (not_slash_suffix b hs _ (by decide))
  have s3 : removesuffix b "/v1-openai".data = b := removesuffix_of_not_suffix h2
  have s4 : removesuffix b "/v1-openai/".data = b :=
    removesuffix_of_not_suffix (not_slash_suffix b hs _ (by decide))
  have s5 : removesuffix b "/openai-v1".data = b := removesuffix_of_not_suffix h3
  have s6 : removesuffix b "/openai-v1/".data = b :=
    removesuffix_of_not_suffix (not_slash_suffix b hs _ (by decide))
  unfold stripVersionSuffixes
  rw [s0, s1, s2, s3, s4, s5, s6]

theorem strip_append_v1openai (b : List Char) (hs : b.getLast? ≠ some '/')
    (h2 : ¬ "/v1-openai".data <:+ b) (h3 : ¬ "/openai-v1".data <:+ b) :
    stripVersionSuffixes (b ++ "/v1-openai".data) = b := by
  have hlast : (b ++ "/v1-openai".data).getLast? = some 'i' := by
    rw [@List.getLast?_append_of_ne_nil _ b "/v1-openai".data (by decide)]
    decide
  have hbs : (b ++ "/v1-openai".data).getLast? ≠ some '/' := by rw [hlast]; decide
  have s0 : rstripSlash (b ++ "/v1-openai".data) = b ++ "/v1-openai".data :=
    rstripSlash_eq_self _ hbs
  have s1 : removesuffix (b ++ "/v1-openai".data) "/v1".data =
      b ++ "/v1-openai".data :=
    removesuffix_of_not_suffix
      (not_suffix_of_getLast?_ne (by decide) (by rw [hlast]; decide))
  have s2 : removesuffix (b ++ "/v1-openai".data) "/v1/".data =
      b ++ "/v1-openai".data :=
    removesuffix_of_not_suffix (not_slash_suffix _ hbs _ (by decide))
  have s3 : removesuffix (b ++ "/v1-openai".data) "/v1-openai".data = b :=
    removesuffix_append b _ (by decide)
  have s4 : removesuffix b "/v1-openai/".data = b :=
    removesuffix_of_not_suffix (not_slash_suffix b hs _ (by decide))
  have s5 : removesuffix b "/openai-v1".data = b := removesuffix_of_not_suffix h3
  have s6 : removesuffix b "/openai-v1/".data = b :=
    removesuffix_of_not_suffix (not_slash_suffix b hs _ (by decide))
  unfold stripVersionSuffixes
  rw [s0, s1, s2, s3, s4, s5, s6]

theorem strip_append_openaiv1 (b : List Char) (hs : b.getLast? ≠ some '/')
    (h2 : ¬ "/v1-openai".data <:+ b) (h3 : ¬ "/openai-v1".data <:+ b) :
    stripVersionSuffixes (b ++ "/openai-v1".data) = b := by
  have hlast : (b ++ "/openai-v1".data).getLast? = some '1' := by
    rw [@List.getLast?_append_of_ne_nil _ b "/openai-v1".data (by decide)]
    decide
  have hbs : (b ++ "/openai-v1".data).getLast? ≠ some '/' := by rw [hlast]; decide
  have s0 : rstripSlash (b ++ "/openai-v1".data) = b ++ "/openai-v1".data :=
    rstripSlash_eq_self _ hbs
  have s1 : removesuffix (b ++ "/openai-v1".data) "/v1".data =
      b ++ "/openai-v1".data :=
    removesuffix_of_not_suffix
      (fun hsuf => absurd ((suffix_append_iff_of_le (by decide)).mp hsuf) (by decide))
  have s2 : removesuffix (b ++ "/openai-v1".data) "/v1/".data =
      b ++ "/openai-v1".data :=
    removesuffix_of_not_suffix (not_slash_suffix _ hbs _ (by decide))
  have s3 : removesuffix (b ++ "/openai-v1".data) "/v1-openai".data =
      b ++ "/openai-v1".data :=
    removesuffix_of_not_suffix
      (fun hsuf => absurd ((suffix_append_iff_of_le (by decide)).mp hsuf) (by decide))
  have s4 : removesuffix (b ++ "/openai-v1".data) "/v1-openai/".data =
      b ++ "/openai-v1".data :=
    removesuffix_of_not_suffix (not_slash_suffix _ hbs _ (by decide))
  have s5 : removesuffix (b ++ "/openai-v1".data) "/openai-v1".data = b :=
    removesuffix_append b _ (by decide)
  have s6 : removesuffix b "/openai-v1/".data = b :=
    removesuffix_of_not_suffix (not_slash_suffix b hs _ (by decide))
  unfold stripVersionSuffixes
  rw [s0, s1, s2, s3, s4, s5, s6]

end Insigma

namespace Insigma

/-! ## C3: suffix-variant invariance of normalization -/

/-- C3: for every base URL b (as a character list) that ends in none of the
six recognized version suffixes and has no trailing slash, normalizing b
with any one of the six suffix variants appended yields the same canonical
base as normalizing b itself: the rerank flavor yields b and the
OpenAI-compatible flavor yields b ++ "/v1". -/
theorem rerank_normalization_suffix_invariant (b : List Char)
    (hs : b.getLast? ≠ some '/')
    (h1 : ¬ "/v1".data <:+ b)
    (h2 : ¬ "/v1-openai".data <:+ b)
    (h3 : ¬ "/openai-v1".data <:+ b) :
    stripVersionSuffixes b = b ∧
    openAiBase b = b ++ "/v1".data ∧
    ∀ suf ∈ versionSuffixes,
      stripVersionSuffixes (b ++ suf) = b ∧
      openAiBase (b ++ suf) = b ++ "/v1".data := by
  have hb : stripVersionSuffixes b = b := strip_clean b hs h1 h2 h3
  refine ⟨hb, ?_, ?_⟩
  · unfold openAiBase; rw [hb]
  · intro suf hsuf
    have hstrip : stripVersionSuffixes (b ++ suf) = b := by
      simp only [versionSuffixes, List.mem_cons, List.not_mem_nil, or_false] at hsuf
      rcases hsuf with rfl | rfl | rfl | rfl | rfl | rfl
      · exact strip_append_v1 b hs h2 h3
      · have hsplit : b ++ "/v1/".data = (b ++ "/v1".data) ++ ['/'] := by
          rw [show ("/v1/".data : List Char) = "/v1".data ++ ['/'] from by decide,
            List.append_assoc]
        rw [hsplit, strip_append_slash]
        exact strip_append_v1 b hs h2 h3
      · exact strip_append_v1openai b hs h2 h3
      · have hsplit : b ++ "/v1-openai/".data = (b ++ "/v1-openai".data) ++ ['/'] := by
          rw [show ("/v1-openai/".data : List Char) = "/v1-openai".data ++ ['/'] from
            by decide, List.append_assoc]
        rw [hsplit, strip_append_slash]
        exact strip_append_v1openai b hs h2 h3
      · exact strip_append_openaiv1 b hs h2 h3
      · have hsplit : b ++ "/openai-v1/".data = (b ++ "/openai-v1".data) ++ ['/'] := by
          rw [show ("/openai-v1/".data : List Char) = "/openai-v1".data ++ ['/'] from
            by decide, List.append_assoc]
        rw [hsplit, strip_append_slash]
        exact strip_append_openaiv1 b hs h2 h3
    refine ⟨hstrip, ?_⟩
    unfold openAiBase
    rw [hstrip]

/-- C3 witness: the spec's concrete scenario, derived from the theorem at
b = "https://api.example.com": the endpoint "https://api.example.com/v1-openai/"
normalizes to "https://api.example.com" under the rerank flavor and to
"https://api.example.com/v1" under the OpenAI-compatible flavor. -/
theorem rerank_normalization_suffix_invariant_witness :
    stripVersionSuffixesS "https://api.example.com/v1-openai/" =
      "https://api.example.com" ∧
    openAiBaseS "https://api.example.com/v1-openai/" =
      "https://api.example.com/v1" := by
  obtain ⟨-, -, hall⟩ :=
    rerank_normalization_suffix_invariant "https://api.example.com".data
      (by decide) (by decide) (by decide) (by decide)
  obtain ⟨hstrip, hopen⟩ := hall "/v1-openai/".data (by decide)
  constructor
  · show String.mk (stripVersionSuffixes "https://api.example.com/v1-openai/".data) =
      "https://api.example.com"
    rw [show "https://api.example.com/v1-openai/".data =
        "https://api.example.com".data ++ "/v1-openai/".data from rfl, hstrip]
  · show String.mk (openAiBase "https://api.example.com/v1-openai/".data) =
      "https://api.example.com/v1"
    rw [show "https://api.example.com/v1-openai/".data =
        "https://api.example.com".data ++ "/v1-openai/".data from rfl, hopen]
    exact congrArg String.mk (by decide)

/-! ## C5: idempotence of normalization -/

/-- C5 counterexample: endpoint normalization is not idempotent for every
input URL string.  The rerank-flavor strip maps "https://h//v1" to
"https://h/" but maps "https://h/" to "https://h"; the OpenAI-compatible
flavor maps "https://h/v1-openai/openai-v1" to "https://h/v1-openai/v1",
which it then maps to "https://h/v1". -/
theorem rerank_normalization_not_idempotent :
    stripVersionSuffixesS (stripVersionSuffixesS "https://h//v1") ≠
      stripVersionSuffixesS "https://h//v1" ∧
    openAiBaseS (openAiBaseS "https://h/v1-openai/openai-v1") ≠
      openAiBaseS "https://h/v1-openai/openai-v1" := by
  constructor
  · show ("https://h" : String) ≠ "https://h/"
    decide
  · show ("https://h/v1" : String) ≠ "https://h/v1-openai/v1"
    decide

/-- C5 (amended): normalization is idempotent for every input URL whose
first normalization pass yields a base with no trailing slash that ends in
none of the suffixes "/v1", "/v1-openai", "/openai-v1": re-stripping that
output returns it unchanged, and re-normalizing under the OpenAI-compatible
flavor returns the same endpoint URL again. -/
theorem rerank_normalization_idempotent_on_clean (s : List Char)
    (hs : (stripVersionSuffixes s).getLast? ≠ some '/')
    (h1 : ¬ "/v1".data <:+ stripVersionSuffixes s)
    (h2 : ¬ "/v1-openai".data <:+ stripVersionSuffixes s)
    (h3 : ¬ "/openai-v1".data <:+ stripVersionSuffixes s) :
    stripVersionSuffixes (stripVersionSuffixes s) = stripVersionSuffixes s ∧
    openAiBase (openAiBase s) = openAiBase s := by
  refine ⟨strip_clean _ hs h1 h2 h3, ?_⟩
  show stripVersionSuffixes (stripVersionSuffixes s ++ "/v1".data) ++ "/v1".data =
    stripVersionSuffixes s ++ "/v1".data
  rw [strip_append_v1 _ hs h2 h3]

/-- C5 witness: idempotence at the concrete input "https://api.example.com/v1/",
whose first pass yields the clean base "https://api.example.com". -/
theorem rerank_normalization_idempotent_on_clean_witness :
    stripVersionSuffixesS (stripVersionSuffixesS "https://api.example.com/v1/") =
      stripVersionSuffixesS "https://api.example.com/v1/" ∧
    openAiBaseS (openAiBaseS "https://api.example.com/v1/") =
      openAiBaseS "https://api.example.com/v1/" := by
  obtain ⟨hstrip, hopen⟩ :=
    rerank_normalization_idempotent_on_clean "https://api.example.com/v1/".data
      (by decide) (by decide) (by decide) (by decide)
  exact ⟨congrArg String.mk hstrip, congrArg String.mk hopen⟩

end Insigma

namespace Insigma

/-! ## Lemmas about the rerank result loop -/

theorem pyListGet?_of_nonneg_lt (l : List String) (i : Int)
    (h0 : 0 ≤ i) (hl : i < (l.length : Int)) :
    pyListGet? l i = some (l.getD i.toNat "") := by
  unfold pyListGet?
  have hni : ¬ i < 0 := by omega
  simp only [hni, if_false]
  rw [if_pos ⟨h0, hl⟩]
  have hlt : i.toNat < l.length := by omega
  rw [List.getD_eq_getD_get?]
  cases hg : l.get? i.toNat with
  | none => rw [List.get?_eq_none] at hg; omega
  | some v => rfl

theorem pyListGet?_of_neg_inrange (l : List String) (i : Int)
    (h0 : -(l.length : Int) ≤ i) (hl : i < 0) :
    (pyListGet? l i).isSome = true := by
  unfold pyListGet?
  simp only [hl, if_true]
  rw [if_pos (by constructor <;> omega)]
  have hlt : ((l.length : Int) + i).toNat < l.length := by omega
  cases hg : l.get? ((l.length : Int) + i).toNat with
  | none => rw [List.get?_eq_none] at hg; omega
  | some v => rfl

theorem pyListGet?_eq_none_of_ge (l : List String) (i : Int)
    (h : (l.length : Int) ≤ i) : pyListGet? l i = none := by
  unfold pyListGet?
  have hni : ¬ i < 0 := by omega
  simp only [hni, if_false]
  rw [if_neg (by omega)]

theorem processResults_of_valid (docs : List String) (st : Option ℚ)
    (rs : List ProviderEntry)
    (h : ∀ r ∈ rs, (resultText docs r).isSome = true) :
    processResults docs st rs =
      some ((rs.filter (fun r => passesThreshold st r.relevance_score)).map
        (fun r => ⟨r.index, (resultText docs r).getD "", r.relevance_score⟩)) := by
  induction rs with
  | nil => rfl
  | cons r rs ih =>
    have hr : (resultText docs r).isSome = true := h r (List.mem_cons_self r rs)
    obtain ⟨t, ht⟩ := Option.isSome_iff_exists.mp hr
    have ih' := ih (fun x hx => h x (List.mem_cons_of_mem r hx))
    unfold processResults
    rw [ht, ih']
    cases hp : passesThreshold st r.relevance_score
    · simp [List.filter_cons, hp]
    · simp [List.filter_cons, hp, ht]

theorem processResults_eq_none_of_bad (docs : List String) (st : Option ℚ)
    (rs : List ProviderEntry)
    (h : ∃ r ∈ rs, r.document = none ∧ (docs.length : Int) ≤ r.index) :
    processResults docs st rs = none := by
  induction rs with
  | nil => simp at h
  | cons r rs ih =>
    obtain ⟨x, hx, hdoc, hge⟩ := h
    rcases List.mem_cons.mp hx with rfl | hx'
    · have hrt : resultText docs x = none := by
        unfold resultText
        rw [hdoc]
        exact pyListGet?_eq_none_of_ge docs x.index hge
      unfold processResults
      rw [hrt]
    · unfold processResults
      cases hrt : resultText docs r with
      | none => rfl
      | some t => rw [ih ⟨x, hx', hdoc, hge⟩]

end Insigma

namespace Insigma

/-! ## C4: empty docs short-circuit -/

/-- C4: for every model string and query string, invoking the rerank
adapter with docs = [] returns a RerankResult carrying that model and zero
documents, and performs no network call: the first component of the trace
is none, meaning no request was ever built or sent. -/
theorem rerank_empty_docs_short_circuit (model endpoint_url query : String)
    (st : Option ℚ) (tn : Option Int) (provider : PostOutcome) :
    rerank_invoke model endpoint_url query [] st tn provider =
      (none, .ok ⟨model, []⟩) := rfl

/-! ## C1: success path builds exactly the filtered entries in order -/

/-- C1: for every non-empty docs list and every successful provider
response (status < 400) whose results entries each carry a valid index
into docs, _invoke returns exactly the provider entries that pass the
threshold test, in provider order, each emitted with the entry's index,
the entry's relevance_score as score, and the document text when a
document object is present, otherwise docs[index]; no re-sorting and no
re-truncation. -/
theorem rerank_success_filters_in_order (model endpoint_url query : String)
    (docs : List String) (st : Option ℚ) (tn : Option Int)
    (status : Nat) (results : List ProviderEntry)
    (hne : docs ≠ []) (hok : status < 400)
    (hvalid : ∀ r ∈ results, 0 ≤ r.index ∧ r.index < (docs.length : Int)) :
    (rerank_invoke model endpoint_url query docs st tn
        (.response status results)).2 =
      .ok ⟨pyStrip model,
        (results.filter (fun r => passesThreshold st r.relevance_score)).map
          (fun r => ⟨r.index,
            (match r.document with
             | some t => t
             | none => docs.getD r.index.toNat ""),
            r.relevance_score⟩)⟩ := by
  have hvalid' : ∀ r ∈ results, (resultText docs r).isSome = true := by
    intro r hr
    obtain ⟨h0, hl⟩ := hvalid r hr
    unfold resultText
    cases hd : r.document with
    | some t => rfl
    | none => rw [pyListGet?_of_nonneg_lt docs r.index h0 hl]; rfl
  have hp := processResults_of_valid docs st results hvalid'
  have hlen : ¬ docs.length = 0 := fun h => hne (List.length_eq_zero.mp h)
  have hst : ¬ (400 ≤ status ∧ status < 600) := by omega
  simp only [rerank_invoke, hlen, if_false, hst, hp]
  refine congrArg Except.ok ?_
  refine congrArg (RerankResult.mk (pyStrip model)) ?_
  refine List.map_congr_left ?_
  intro r hr
  obtain ⟨h0, hl⟩ := hvalid r (List.mem_of_mem_filter hr)
  cases hd : r.document with
  | some t => simp [resultText, hd]
  | none => simp [resultText, hd, pyListGet?_of_nonneg_lt docs r.index h0 hl]

/-- C1 witness: the general theorem applied at docs = ["A", "B"],
score_threshold = 1, provider results with scores 2 and 0 at indexes 1 and
0: exactly one document survives, index 1, text "B", score 2, just as the
spec scenario shape prescribes. -/
theorem rerank_success_filters_in_order_witness :
    (rerank_invoke "m" "https://e" "q" ["A", "B"] (some 1) none
        (.response 200 [⟨1, 2, none⟩, ⟨0, 0, none⟩])).2 =
      .ok ⟨"m", [⟨1, "B", 2⟩]⟩ := by
  have h := rerank_success_filters_in_order "m" "https://e" "q" ["A", "B"]
    (some 1) none 200 [⟨1, 2, none⟩, ⟨0, 0, none⟩]
    (by decide) (by decide) (by decide)
  rw [h]
  exact congrArg Except.ok (by decide)

/-! ## C10: unguarded docs[index] lookup -/

/-- C10: with non-empty docs, if some document-less entry of the response
carries an index at or beyond the length of docs, _invoke raises the
IndexError from the unguarded docs[index] lookup instead of returning a
RerankResult; and when every document-less entry's index is a valid Python
position into docs, the result construction is total. -/
theorem rerank_bad_index_raises (model endpoint_url query : String)
    (docs : List String) (st : Option ℚ) (tn : Option Int)
    (results : List ProviderEntry) (hne : docs ≠ []) :
    ((∃ r ∈ results, r.document = none ∧ (docs.length : Int) ≤ r.index) →
      (rerank_invoke model endpoint_url query docs st tn
          (.response 200 results)).2 =
        .error (.uncaught (.indexError "list index out of range"))) ∧
    ((∀ r ∈ results, r.document = none →
        -(docs.length : Int) ≤ r.index ∧ r.index < (docs.length : Int)) →
      ∃ out, (rerank_invoke model endpoint_url query docs st tn
          (.response 200 results)).2 = Except.ok out) := by
  have hlen : ¬ docs.length = 0 := fun h => hne (List.length_eq_zero.mp h)
  have hst : ¬ (400 ≤ 200 ∧ 200 < 600) := by omega
  constructor
  · intro hbad
    have hp := processResults_eq_none_of_bad docs st results hbad
    simp only [rerank_invoke, hlen, if_false, hst, hp]
    rfl
  · intro hgood
    have hvalid' : ∀ r ∈ results, (resultText docs r).isSome = true := by
      intro r hr
      unfold resultText
      cases hd : r.document with
      | some t => rfl
      | none =>
        obtain ⟨hlo, hhi⟩ := hgood r hr hd
        by_cases hsign : 0 ≤ r.index
        · rw [pyListGet?_of_nonneg_lt docs r.index hsign hhi]; rfl
        · exact pyListGet?_of_neg_inrange docs r.index hlo (by omega)
    have hp := processResults_of_valid docs st results hvalid'
    simp only [rerank_invoke, hlen, if_false, hst, hp]
    exact ⟨_, rfl⟩

/-- C10 witness: docs = ["A"] and a single document-less entry with
index 5 makes _invoke raise the IndexError. -/
theorem rerank_bad_index_raises_witness :
    (rerank_invoke "m" "https://e" "q" ["A"] none none
        (.response 200 [⟨5, 1, none⟩])).2 =
      .error (.uncaught (.indexError "list index out of range")) :=
  (rerank_bad_index_raises "m" "https://e" "q" ["A"] none none
      [⟨5, 1, none⟩] (by decide)).1
    ⟨⟨5, 1, none⟩, List.mem_cons_self _ _, rfl, by decide⟩

end Insigma

namespace Insigma

/-! ## C6: request body contents -/

/-- C6: for every non-empty docs list the JSON request body the rerank
adapter sends is exactly model (stripped of surrounding whitespace),
query, documents = docs, and top_n; when the caller omits top_n the body
carries top_n = 3, and when the caller supplies top_n the body carries
exactly that value. -/
theorem rerank_request_body_exact (model endpoint_url query : String)
    (docs : List String) (st : Option ℚ) (tn : Option Int)
    (provider : PostOutcome) (hne : docs ≠ []) :
    (rerank_invoke model endpoint_url query docs st tn provider).1 =
      some ⟨rerankRequestUrl endpoint_url,
        ⟨pyStrip model, query, docs, tn.getD 3⟩⟩ ∧
    (tn = none → tn.getD 3 = 3) ∧
    (∀ v, tn = some v → tn.getD 3 = v) := by
  have hlen : ¬ docs.length = 0 := fun h => hne (List.length_eq_zero.mp h)
  refine ⟨?_, fun h => by rw [h]; rfl, fun v h => by rw [h]; rfl⟩
  cases provider with
  | raiseExc e => simp only [rerank_invoke, hlen, if_false]
  | response status results =>
    by_cases hst : 400 ≤ status ∧ status < 600
    · simp only [rerank_invoke, hlen, if_false]
      rw [if_pos hst]
    · cases hp : processResults docs st results with
      | none => simp only [rerank_invoke, hlen, if_false, hst, hp]
      | some l => simp only [rerank_invoke, hlen, if_false, hst, hp]

/-- C6 witness: concrete invocation with top_n supplied as 7 and another
with top_n omitted. -/
theorem rerank_request_body_exact_witness :
    (rerank_invoke " m " "https://e/v1" "q" ["A", "B"] none (some 7)
        (.response 200 [])).1 =
      some ⟨rerankRequestUrl "https://e/v1", ⟨"m", "q", ["A", "B"], 7⟩⟩ ∧
    (rerank_invoke " m " "https://e/v1" "q" ["A", "B"] none none
        (.response 200 [])).1 =
      some ⟨rerankRequestUrl "https://e/v1", ⟨"m", "q", ["A", "B"], 3⟩⟩ :=
  ⟨(rerank_request_body_exact " m " "https://e/v1" "q" ["A", "B"] none
      (some 7) (.response 200 []) (by decide)).1,
   (rerank_request_body_exact " m " "https://e/v1" "q" ["A", "B"] none
      none (.response 200 []) (by decide)).1⟩

/-! ## C9: model field trimming differs between the two paths -/

/-- C9: the model field of the returned RerankResult is the untrimmed
input model when docs is empty (the short-circuit returns before
model.strip() runs) and the trimmed model when docs is non-empty; hence
for a model with surrounding whitespace the two paths return different
model values. -/
theorem rerank_model_trim_mismatch (model endpoint_url query : String)
    (docs : List String) (st : Option ℚ) (tn : Option Int)
    (provider : PostOutcome) (hne : docs ≠ []) :
    (rerank_invoke model endpoint_url query [] st tn provider).2 =
      .ok ⟨model, []⟩ ∧
    (rerank_invoke model endpoint_url query docs st tn
        (.response 200 [])).2 = .ok ⟨pyStrip model, []⟩ ∧
    (pyStrip model ≠ model →
      (rerank_invoke model endpoint_url query [] st tn provider).2 ≠
        (rerank_invoke model endpoint_url query docs st tn
          (.response 200 [])).2) := by
  have hlen : ¬ docs.length = 0 := fun h => hne (List.length_eq_zero.mp h)
  have hst : ¬ (400 ≤ 200 ∧ 200 < 600) := by omega
  have h1 : (rerank_invoke model endpoint_url query [] st tn provider).2 =
      .ok ⟨model, []⟩ := rfl
  have h2 : (rerank_invoke model endpoint_url query docs st tn
      (.response 200 [])).2 = .ok ⟨pyStrip model, []⟩ := by
    have hp : processResults docs st [] = some [] := rfl
    simp only [rerank_invoke, hlen, if_false, hst, hp]
  refine ⟨h1, h2, ?_⟩
  intro htrim heq
  rw [h1, h2] at heq
  have hres := Except.ok.inj heq
  exact htrim (congrArg RerankResult.model hres).symm

/-- C9 witness: at model " m " the empty-docs path returns model " m "
while the non-empty path returns "m", and the two results differ. -/
theorem rerank_model_trim_mismatch_witness :
    (rerank_invoke " m " "https://e" "q" [] none none
        (.response 200 [])).2 = .ok ⟨" m ", []⟩ ∧
    (rerank_invoke " m " "https://e" "q" ["A"] none none
        (.response 200 [])).2 = .ok ⟨"m", []⟩ ∧
    (rerank_invoke " m " "https://e" "q" [] none none
        (.response 200 [])).2 ≠
      (rerank_invoke " m " "https://e" "q" ["A"] none none
        (.response 200 [])).2 := by
  obtain ⟨h1, h2, h3⟩ := rerank_model_trim_mismatch " m " "https://e" "q"
    ["A"] none none (.response 200 []) (by decide)
  exact ⟨h1, h2, h3 (by decide)⟩

/-! ## C2: a 503 response does not become InvokeServerUnavailableError -/

/-- C2 evaluation: when the provider answers the rerank POST with
HTTP 503, response.raise_for_status() raises a
requests.exceptions.HTTPError; the adapter's except clause names
httpx.HTTPStatusError, which does not match, so the requests error
propagates uncaught instead of being converted to
InvokeServerUnavailableError; and no row of the declarative error-mapping
table (whose entries name only httpx exception classes) matches it
either. -/
theorem rerank_503_propagates_uncaught :
    (rerank_invoke "rerank-model" "https://api.example.com" "q" ["A", "B"]
        none none (.response 503 [])).2 =
      .error (.uncaught (.requestsHTTPError 503 (requestsHTTPErrorMsg 503))) ∧
    (∀ msg, (rerank_invoke "rerank-model" "https://api.example.com" "q"
        ["A", "B"] none none (.response 503 [])).2 ≠
      .error (.invokeServerUnavailableError msg)) ∧
    classifyExc (.requestsHTTPError 503 (requestsHTTPErrorMsg 503)) = none := by
  have h1 : (rerank_invoke "rerank-model" "https://api.example.com" "q"
      ["A", "B"] none none (.response 503 [])).2 =
      .error (.uncaught (.requestsHTTPError 503 (requestsHTTPErrorMsg 503))) := rfl
  refine ⟨h1, ?_, by decide⟩
  intro msg heq
  rw [h1] at heq
  exact InvokeErr.noConfusion (Except.error.inj heq)

/-! ## C7: validate_credentials wraps every failure -/

/-- C7: for every provider behavior, validate_credentials either succeeds
silently (when the smoke-test _invoke returns a result) or raises exactly
the credentials-invalid error whose message is the fixed Chinese prefix
followed by the original exception's message text; no other exception
kind escapes. -/
theorem rerank_validate_credentials_wraps (model endpoint_url : String)
    (provider : PostOutcome) :
    (∃ r, (rerank_invoke model endpoint_url "中国的首都是哪里？" validateDocs
        (some (4 / 5)) none provider).2 = Except.ok r ∧
      rerank_validate_credentials model endpoint_url provider = none) ∨
    (∃ e, (rerank_invoke model endpoint_url "中国的首都是哪里？" validateDocs
        (some (4 / 5)) none provider).2 = Except.error e ∧
      rerank_validate_credentials model endpoint_url provider =
        some ("凭证验证失败: " ++ e.message)) := by
  unfold rerank_validate_credentials
  cases hcase : (rerank_invoke model endpoint_url "中国的首都是哪里？"
      validateDocs (some (4 / 5)) none provider).2 with
  | ok r => exact Or.inl ⟨r, rfl, rfl⟩
  | error e => exact Or.inr ⟨e, rfl, rfl⟩

end Insigma

namespace Insigma

/-! ## C8: credential normalizers replace only endpoint_url -/

theorem dictGet?_dictSet_self (d : Dict) (k v : String) :
    dictGet? (dictSet d k v) k = some v := by
  induction d with
  | nil => simp [dictSet, dictGet?]
  | cons p t ih =>
    obtain ⟨k', v'⟩ := p
    by_cases h : k' = k
    · simp [dictSet, dictGet?, h]
    · simp [dictSet, dictGet?, h, ih]

theorem dictGet?_dictSet_ne (d : Dict) (k v k0 : String) (h : k0 ≠ k) :
    dictGet? (dictSet d k v) k0 = dictGet? d k0 := by
  induction d with
  | nil =>
    have hne : ¬ k = k0 := fun he => h he.symm
    simp only [dictSet, dictGet?, hne, if_false]
  | cons p t ih =>
    obtain ⟨k', v'⟩ := p
    by_cases hk : k' = k
    · subst hk
      have hne : ¬ k' = k0 := fun he => h he.symm
      simp only [dictSet, dictGet?, eq_self_iff_true, if_true, hne, if_false]
    · simp only [dictSet, dictGet?, hk, if_false]
      by_cases hk0 : k' = k0
      · simp [hk0]
      · simp [hk0, ih]

/-- C8: none of the three credential-normalization routines (the embedding
adapter's _get_compatible_credentials, the STT and TTS adapters'
_standardize_endpoint_url) alters the caller's mapping: each is a pure
function of the input that yields a fresh mapping whose endpoint_url is
replaced by the OpenAI-compatible base while every other key is looked up
unchanged. -/
theorem credential_normalizers_replace_only_endpoint (d : Dict) (u : String)
    (hu : dictGet? d "endpoint_url" = some u) :
    (∃ d', embedding_get_compatible_credentials d = some d' ∧
      dictGet? d' "endpoint_url" = some (openAiBaseS u) ∧
      ∀ k, k ≠ "endpoint_url" → dictGet? d' k = dictGet? d k) ∧
    (∃ d', speech2text_standardize_endpoint_url d = some d' ∧
      dictGet? d' "endpoint_url" = some (openAiBaseS u) ∧
      ∀ k, k ≠ "endpoint_url" → dictGet? d' k = dictGet? d k) ∧
    (∃ d', tts_standardize_endpoint_url d = some d' ∧
      dictGet? d' "endpoint_url" = some (openAiBaseS u) ∧
      ∀ k, k ≠ "endpoint_url" → dictGet? d' k = dictGet? d k) := by
  have he : embedding_get_compatible_credentials d =
      some (dictSet d "endpoint_url" (openAiBaseS u)) := by
    unfold embedding_get_compatible_credentials
    rw [hu]
  have hsp : speech2text_standardize_endpoint_url d =
      some (dictSet d "endpoint_url" (openAiBaseS u)) := by
    unfold speech2text_standardize_endpoint_url
    rw [hu]
  have ht : tts_standardize_endpoint_url d =
      some (dictSet d "endpoint_url" (openAiBaseS u)) := by
    unfold tts_standardize_endpoint_url
    rw [hu]
  exact
    ⟨⟨_, he, dictGet?_dictSet_self d _ _,
        fun k hk => dictGet?_dictSet_ne d _ _ k hk⟩,
     ⟨_, hsp, dictGet?_dictSet_self d _ _,
        fun k hk => dictGet?_dictSet_ne d _ _ k hk⟩,
     ⟨_, ht, dictGet?_dictSet_self d _ _,
        fun k hk => dictGet?_dictSet_ne d _ _ k hk⟩⟩

/-- C8 witness: a two-key credentials mapping keeps its api_key under all
three normalizers while endpoint_url becomes the OpenAI-compatible base. -/
theorem credential_normalizers_replace_only_endpoint_witness :
    (∃ d', embedding_get_compatible_credentials
        [("endpoint_url", "https://e"), ("api_key", "k")] = some d' ∧
      dictGet? d' "endpoint_url" = some (openAiBaseS "https://e") ∧
      dictGet? d' "api_key" = some "k") ∧
    (∃ d', speech2text_standardize_endpoint_url
        [("endpoint_url", "https://e"), ("api_key", "k")] = some d' ∧
      dictGet? d' "endpoint_url" = some (openAiBaseS "https://e") ∧
      dictGet? d' "api_key" = some "k") ∧
    (∃ d', tts_standardize_endpoint_url
        [("endpoint_url", "https://e"), ("api_key", "k")] = some d' ∧
      dictGet? d' "endpoint_url" = some (openAiBaseS "https://e") ∧
      dictGet? d' "api_key" = some "k") := by
  obtain ⟨⟨d1, h1, h2, h3⟩, ⟨d2, g1, g2, g3⟩, ⟨d3, f1, f2, f3⟩⟩ :=
    credential_normalizers_replace_only_endpoint
      [("endpoint_url", "https://e"), ("api_key", "k")] "https://e" (by decide)
  refine ⟨⟨d1, h1, h2, ?_⟩, ⟨d2, g1, g2, ?_⟩, ⟨d3, f1, f2, ?_⟩⟩
  · rw [h3 "api_key" (by decide)]; decide
  · rw [g3 "api_key" (by decide)]; decide
  · rw [f3 "api_key" (by decide)]; decide

end Insigma
